import Mathlib

/-!
Verification of the read-side segment access layer (`src/core/segment_reader.rs`).

The `SegmentReader` facade itself is translated directly from the Rust source.
Its collaborators (`CompositeFile`, `DeleteBitSet`, `FastFieldsReader`,
`StoreReader`, `FieldReader`, `Segment`, `Schema`) live outside the provided
source excerpt; they are modelled from the specification (sections 3, 4.1-4.4
and 6 of the spec) as explicit, executable Lean structures.
-/

namespace Tantivy

/-- Modelled from the spec: a document id is an ordinal below `max_doc`. -/
abbrev DocId := Nat

/-- Modelled from the spec: a field identifier keying composite sub-ranges. -/
abbrev Field := Nat

/-- Modelled from the spec: a cheap sub-range view of bytes handed out by a
composite file; represented by the bytes it exposes. -/
abbrev SubSource := List Nat

/-- Modelled from the spec: the stored representation of a document returned
by the stored-document reader. -/
abbrev Document := List Nat

/-- Modelled from the spec (section 3): the closed tag set naming the physical
files a segment may have. Names follow `SegmentComponent` in the source. -/
inductive SegmentComponent where
  | TERMS
  | POSTINGS
  | POSITIONS
  | STORE
  | FASTFIELDS
  | FIELDNORMS
  | DELETE
deriving DecidableEq, Repr

/-- Error kinds of the segment reading layer. Modelled from the spec
(section 7 taxonomy): the source uses ad hoc string errors ("Field not found")
for the absent-sub-range case; the spec directs a closed error-kind
enumeration. `buildFailure` wraps an opaque code coming out of the external
`FieldReader::new`; `openFailure` records which component byte source could
not be obtained; `corruption` is a malformed composite directory. -/
inductive TError where
  | fieldNotFound
  | buildFailure (code : Nat)
  | openFailure (c : SegmentComponent)
  | corruption
  | storeError
deriving DecidableEq, Repr

/-- Modelled from the spec (section 6): a byte source is an addressable view
over bytes. For this development the payload is pre-classified by what a
well-formed write of each component would contain: `composite` carries a
parseable trailing directory of per-field sub-ranges, `corrupt` a malformed
directory, `bits` a delete bit vector, `storeSrc` the stored-document file. -/
inductive ByteSource where
  | composite (entries : List (Field × SubSource))
  | corrupt
  | bits (b : List Bool)
  | storeSrc (docs : List (Option Document))
deriving DecidableEq, Repr

/-- Modelled from the spec (section 4.1): a composite file maps each field
identifier to at most one byte sub-range. -/
structure CompositeFile where
  entries : List (Field × SubSource)
deriving DecidableEq, Repr

/-- Modelled from the spec (section 4.1): `empty()` constructs a zero-entry
composite file without touching storage. -/
def CompositeFile.empty : CompositeFile := ⟨[]⟩

/-- Modelled from the spec (section 4.1): parsing the trailing directory of a
byte source; a malformed directory is a fatal corruption error. -/
def CompositeFile.open' (s : ByteSource) : Except TError CompositeFile :=
  match s with
  | .composite es => .ok ⟨es⟩
  | _ => .error .corruption

/-- Modelled from the spec (section 4.1): `open_read(field)` returns the
field's sub-range, or `none` when the field is absent from this component. -/
def CompositeFile.open_read (c : CompositeFile) (field : Field) : Option SubSource :=
  c.entries.lookup field

/-- Modelled from the spec (sections 3, 4.2): an immutable bit vector indexed
by document ordinal. -/
structure DeleteBitSet where
  bitsL : List Bool
deriving DecidableEq, Repr

/-- Modelled from the spec (section 4.2): `empty()` — no deletions. -/
def DeleteBitSet.empty : DeleteBitSet := ⟨[]⟩

/-- Modelled from the spec (section 4.2): `open(byte_source)` never fails;
a payload that is not a delete-bits payload yields no marked documents. -/
def DeleteBitSet.open' (s : ByteSource) : DeleteBitSet :=
  match s with
  | .bits b => ⟨b⟩
  | _ => ⟨[]⟩

/-- Modelled from the spec (section 4.2): `len()` is the number of set bits,
i.e. the number of deleted documents. -/
def DeleteBitSet.len (d : DeleteBitSet) : Nat :=
  d.bitsL.count true

/-- Modelled from the spec (section 4.2): O(1) membership query; out-of-range
ids read as not deleted in this model. -/
def DeleteBitSet.is_deleted (d : DeleteBitSet) (doc : DocId) : Bool :=
  d.bitsL.getD doc false

/-- Modelled from the spec (sections 3, 6): the declared type of a schema
field together with its fast flag, as exposed by `FieldEntry::field_type`. -/
inductive FieldType where
  | u64Type (fast : Bool)
  | i64Type (fast : Bool)
  | textType
deriving DecidableEq, Repr

/-- Modelled from the spec (section 6): the schema entry of one field. -/
structure FieldEntry where
  fieldType : FieldType
deriving DecidableEq, Repr

/-- Modelled from the spec (section 6): a read-only lookup from field id to
its entry; ids beyond the declared fields read as a plain text field. -/
structure Schema where
  fields : List FieldEntry
deriving DecidableEq, Repr

def Schema.get_field_entry (s : Schema) (field : Field) : FieldEntry :=
  s.fields.getD field ⟨.textType⟩

/-- Modelled from the spec (sections 3, 4.3): the fast field store builds a
composite index of per-field sub-ranges eagerly and defers decoding. -/
structure FastFieldsReader where
  composite : CompositeFile
deriving DecidableEq, Repr

/-- Modelled from the spec (section 4.3): `from_source` parses the composite
directory; a malformed directory is fatal. -/
def FastFieldsReader.from_source (s : ByteSource) : Except TError FastFieldsReader :=
  match CompositeFile.open' s with
  | .ok c => .ok ⟨c⟩
  | .error e => .error e

/-- Modelled from the spec (section 4.3): `open_reader(field)` returns the
field's fixed-width value array (its sub-range), or `none` if the field has
no fast-field sub-range. -/
def FastFieldsReader.open_reader (r : FastFieldsReader) (field : Field) : Option SubSource :=
  r.composite.open_read field

/-- Modelled from the spec (section 9): the generic `TFastFieldReader`
parameter is a small closed set of reader variants, each with a capability
check against the field's declared schema type. -/
inductive FastFieldReaderKind where
  | u64Reader
  | i64Reader
deriving DecidableEq, Repr

/-- Modelled from the spec (section 4.3): `is_enabled` — a 64-bit numeric
reader is legal exactly for fields declared numeric-and-fast. -/
def FastFieldReaderKind.is_enabled (k : FastFieldReaderKind) (ft : FieldType) : Bool :=
  match k, ft with
  | .u64Reader, .u64Type fast => fast
  | .i64Reader, .i64Type fast => fast
  | _, _ => false

/-- Modelled from the spec (section 4.4): the stored-document reader is an
opaque fetch-by-id service. -/
structure StoreReader where
  docsL : List (Option Document)
deriving DecidableEq, Repr

/-- Modelled from the spec (section 4.4): building the store reader from its
byte source never fails in the source (`StoreReader::from_source` returns no
`Result`). -/
def StoreReader.from_source (s : ByteSource) : StoreReader :=
  match s with
  | .storeSrc docs => ⟨docs⟩
  | _ => ⟨[]⟩

/-- Modelled from the spec (section 4.4): `get(doc_id)` returns the stored
document or a not-found/corruption error. -/
def StoreReader.get (r : StoreReader) (doc_id : DocId) : Except TError Document :=
  match r.docsL.get? doc_id with
  | some (some d) => .ok d
  | _ => .error .storeError

/-- Modelled from the spec (section 3): segment metadata — `max_doc`,
the number of live documents reported by the snapshot, and `has_deletes`. -/
structure SegmentMeta where
  maxDoc : Nat
  numDocsM : Nat
  hasDeletes : Bool
deriving DecidableEq, Repr

def SegmentMeta.max_doc (m : SegmentMeta) : DocId := m.maxDoc

def SegmentMeta.num_docs (m : SegmentMeta) : DocId := m.numDocsM

def SegmentMeta.has_deletes (m : SegmentMeta) : Bool := m.hasDeletes

/-- Modelled from the spec (section 6): the consumed `Segment` collaborator:
per-component byte sources (`none` when the physical component is missing so
that `open_read` fails), metadata, schema and id. -/
structure Segment where
  termsC : Option ByteSource
  postingsC : Option ByteSource
  positionsC : Option ByteSource
  storeC : Option ByteSource
  fastfieldsC : Option ByteSource
  fieldnormsC : Option ByteSource
  deleteC : Option ByteSource
  metaS : SegmentMeta
  schemaS : Schema
  idS : Nat

/-- The byte source physically present for a component, if any. -/
def Segment.component (s : Segment) (c : SegmentComponent) : Option ByteSource :=
  match c with
  | .TERMS => s.termsC
  | .POSTINGS => s.postingsC
  | .POSITIONS => s.positionsC
  | .STORE => s.storeC
  | .FASTFIELDS => s.fastfieldsC
  | .FIELDNORMS => s.fieldnormsC
  | .DELETE => s.deleteC

/-- Modelled from the spec (section 6): `open_read(component_tag)` yields the
component's byte source or an error when it cannot be obtained. -/
def Segment.open_read (s : Segment) (c : SegmentComponent) : Except TError ByteSource :=
  match s.component c with
  | some bs => .ok bs
  | none => .error (.openFailure c)

def Segment.meta (s : Segment) : SegmentMeta := s.metaS

def Segment.schema (s : Segment) : Schema := s.schemaS

def Segment.id (s : Segment) : Nat := s.idS

/-- Modelled from the spec (sections 2, 3): the external `FieldReader` built
from one field's three sub-ranges; its decoded payload is opaque here. -/
structure FieldReader where
  data : List Nat
deriving DecidableEq, Repr

/-- Modelled from the spec (section 4.5): `FieldReader::new` is an external
black-box builder combining the three sub-ranges, the shared delete bit set
and the schema snapshot; it may fail on a malformed sub-range, with an error
that is a construction failure, never the absent-sub-range outcome. The
builder is kept as an explicit parameter so theorems hold for every decoder. -/
structure FieldDecoder where
  new : SubSource → SubSource → SubSource → DeleteBitSet → Schema → Except Nat FieldReader

/-- The field-reader cache: in the source an
`Arc<RwLock<HashMap<Field, Arc<FieldReader>>>>`; modelled as an association
list with at most one binding per field, threaded explicitly since it is the
only interior-mutable state of a `SegmentReader`. -/
abbrev FieldReaderCache := List (Field × FieldReader)

def cacheLookup (c : FieldReaderCache) (f : Field) : Option FieldReader :=
  c.lookup f

/-- `HashMap::insert`: at most one binding per key survives. -/
def cacheInsert (c : FieldReaderCache) (f : Field) (r : FieldReader) : FieldReaderCache :=
  (f, r) :: c.filter (fun p => p.1 != f)

/-- Number of bindings a cache holds for one key. -/
def cacheCountKey (c : FieldReaderCache) (f : Field) : Nat :=
  (c.filter (fun p => p.1 == f)).length

/-- Translated from `struct SegmentReader` (segment_reader.rs, lines 36-52);
the `field_reader_cache` is threaded explicitly through `field_reader`. -/
structure SegmentReader where
  segment_id : Nat
  segment_meta : SegmentMeta
  termdict_composite : CompositeFile
  postings_composite : CompositeFile
  positions_composite : CompositeFile
  store_reader : StoreReader
  fast_fields_reader : FastFieldsReader
  fieldnorms_reader : FastFieldsReader
  delete_bitset : DeleteBitSet
  schema : Schema
deriving DecidableEq, Repr

namespace SegmentReader

/-- `SegmentReader::max_doc` (lines 59-61). -/
def max_doc (r : SegmentReader) : DocId := r.segment_meta.max_doc

/-- `SegmentReader::num_docs` (lines 68-70). -/
def num_docs (r : SegmentReader) : DocId := r.segment_meta.num_docs

/-- `SegmentReader::num_deleted_docs` (lines 74-76). -/
def num_deleted_docs (r : SegmentReader) : DocId := r.delete_bitset.len

/-- Outcome of `get_fast_field_reader`: `ok`, the typed
`FastFieldNotAvailableError`, or the panic of the `.expect` branch. -/
inductive FFOutcome where
  | ok (r : SubSource)
  | notAvailable (e : FieldEntry)
  | panicked
deriving DecidableEq, Repr

/-- `SegmentReader::get_fast_field_reader` (lines 93-105): schema capability
check first; on an enabled type, `open_reader(field).expect(...)` — a missing
sub-range panics rather than returning an error value. -/
def get_fast_field_reader (r : SegmentReader) (kind : FastFieldReaderKind)
    (field : Field) : FFOutcome :=
  let field_entry := r.schema.get_field_entry field
  if ¬ kind.is_enabled field_entry.fieldType then
    .notAvailable field_entry
  else
    match r.fast_fields_reader.open_reader field with
    | some rd => .ok rd
    | none => .panicked

/-- `SegmentReader::get_fieldnorms_reader` (lines 115-117). -/
def get_fieldnorms_reader (r : SegmentReader) (field : Field) : Option SubSource :=
  r.fieldnorms_reader.open_reader field

/-- `SegmentReader::open` (lines 125-174), translated step by step in source
order; each `?` becomes an explicit match with an early error return. -/
def open' (segment : Segment) : Except TError SegmentReader :=
  match segment.open_read .TERMS with
  | .error e => .error e
  | .ok termdict_source =>
  match CompositeFile.open' termdict_source with
  | .error e => .error e
  | .ok termdict_composite =>
  match segment.open_read .STORE with
  | .error e => .error e
  | .ok store_source =>
  let store_reader := StoreReader.from_source store_source
  match segment.open_read .POSTINGS with
  | .error e => .error e
  | .ok postings_source =>
  match CompositeFile.open' postings_source with
  | .error e => .error e
  | .ok postings_composite =>
  match (match segment.open_read .POSITIONS with
         | .ok source => CompositeFile.open' source
         | .error _ => .ok CompositeFile.empty) with
  | .error e => .error e
  | .ok positions_composite =>
  match segment.open_read .FASTFIELDS with
  | .error e => .error e
  | .ok fast_field_data =>
  match FastFieldsReader.from_source fast_field_data with
  | .error e => .error e
  | .ok fast_fields_reader =>
  match segment.open_read .FIELDNORMS with
  | .error e => .error e
  | .ok fieldnorms_data =>
  match FastFieldsReader.from_source fieldnorms_data with
  | .error e => .error e
  | .ok fieldnorms_reader =>
  match (if segment.meta.has_deletes then
           match segment.open_read .DELETE with
           | .ok delete_data => .ok (DeleteBitSet.open' delete_data)
           | .error e => .error e
         else (.ok DeleteBitSet.empty : Except TError DeleteBitSet)) with
  | .error e => .error e
  | .ok delete_bitset =>
  .ok { segment_id := segment.id
        segment_meta := segment.meta
        termdict_composite := termdict_composite
        postings_composite := postings_composite
        positions_composite := positions_composite
        store_reader := store_reader
        fast_fields_reader := fast_fields_reader
        fieldnorms_reader := fieldnorms_reader
        delete_bitset := delete_bitset
        schema := segment.schema }

/-- The slow path of `field_reader` (lines 184-202): acquire the three
sub-ranges — any absence is the "field not found" error — then run the
external builder, whose failure is surfaced as a construction failure. -/
def buildFieldReader (dec : FieldDecoder) (r : SegmentReader)
    (field : Field) : Except TError FieldReader :=
  match r.termdict_composite.open_read field with
  | none => .error .fieldNotFound
  | some termdict_source =>
    match r.postings_composite.open_read field with
    | none => .error .fieldNotFound
    | some postings_source =>
      match r.positions_composite.open_read field with
      | none => .error .fieldNotFound
      | some positions_source =>
        match dec.new termdict_source postings_source positions_source
            r.delete_bitset r.schema with
        | .ok fr => .ok fr
        | .error e => .error (.buildFailure e)

/-- `SegmentReader::field_reader` (lines 176-209): cache hit under the read
lock returns the cached handle; on a miss the reader is built and, on
success only, inserted under the write lock. The cache is threaded as
explicit state. -/
def field_reader (dec : FieldDecoder) (r : SegmentReader)
    (cache : FieldReaderCache) (field : Field) :
    Except TError FieldReader × FieldReaderCache :=
  match cacheLookup cache field with
  | some fr => (.ok fr, cache)
  | none =>
    match buildFieldReader dec r field with
    | .ok fr => (.ok fr, cacheInsert cache field fr)
    | .error e => (.error e, cache)

/-- `SegmentReader::doc` (lines 215-217). -/
def doc (r : SegmentReader) (doc_id : DocId) : Except TError Document :=
  r.store_reader.get doc_id

/-- `SegmentReader::is_deleted` (lines 234-236). -/
def is_deleted (r : SegmentReader) (doc : DocId) : Bool :=
  r.delete_bitset.is_deleted doc

end SegmentReader

/-- Number of deleted documents recorded on disk for a segment: the set-bit
count of the delete component when `has_deletes`, else zero. -/
def Segment.numDeletedOnDisk (s : Segment) : Nat :=
  if s.metaS.hasDeletes then
    match s.deleteC with
    | some bs => (DeleteBitSet.open' bs).len
    | none => 0
  else 0

/-- Modelled from the spec (section 3): a valid segment's metadata snapshot
satisfies `num_deleted_docs ≤ max_doc` and
`num_docs = max_doc - num_deleted_docs`, where the deleted count is the one
carried by the delete component (zero when `has_deletes` is false). -/
def Segment.valid (s : Segment) : Prop :=
  s.numDeletedOnDisk ≤ s.metaS.maxDoc ∧
  s.metaS.numDocsM = s.metaS.maxDoc - s.numDeletedOnDisk

instance (s : Segment) : Decidable s.valid := by
  unfold Segment.valid
  infer_instance

/-- All mandatory components of a segment open and parse successfully:
Terms, Store, Postings, FastFields, FieldNorms, and Delete when
`has_deletes` (the store and delete parses are infallible, so only the byte
source needs to be obtainable there). -/
def Segment.mandatoryOk (s : Segment) : Prop :=
  (∃ bs, s.termsC = some bs ∧ ∃ c, CompositeFile.open' bs = .ok c) ∧
  (∃ bs, s.storeC = some bs) ∧
  (∃ bs, s.postingsC = some bs ∧ ∃ c, CompositeFile.open' bs = .ok c) ∧
  (∃ bs, s.fastfieldsC = some bs ∧ ∃ f, FastFieldsReader.from_source bs = .ok f) ∧
  (∃ bs, s.fieldnormsC = some bs ∧ ∃ f, FastFieldsReader.from_source bs = .ok f) ∧
  (s.metaS.hasDeletes = true → ∃ bs, s.deleteC = some bs)

instance exceptDecEq {ε α : Type} [DecidableEq ε] [DecidableEq α] :
    DecidableEq (Except ε α) := fun x y =>
  match x, y with
  | .ok a, .ok b => if h : a = b then isTrue (by rw [h]) else isFalse (by simp [h])
  | .error a, .error b => if h : a = b then isTrue (by rw [h]) else isFalse (by simp [h])
  | .ok _, .error _ => isFalse (by simp)
  | .error _, .ok _ => isFalse (by simp)

/-- State of one thread calling `field_reader(field)` concurrently, per the
spec's concurrency contract (section 5): the cache lookup under the read
lock and the insertion under the write lock are the atomic steps; the
construction between them is pure and unlocked. -/
inductive TState where
  | start
  | built (res : Except TError FieldReader)
  | done (res : Except TError FieldReader)
deriving DecidableEq, Repr

/-- One atomic step of one thread (section 5): from `start`, the read-locked
lookup either completes with the cached handle or moves to the unlocked
construction; a successful construction is inserted under the write lock
(unconditionally — last insertion wins); a failed construction returns the
error without touching the cache. -/
def threadStep (dec : FieldDecoder) (r : SegmentReader) (field : Field)
    (cache : FieldReaderCache) (t : TState) : FieldReaderCache × TState :=
  match t with
  | .start =>
    match cacheLookup cache field with
    | some fr => (cache, .done (.ok fr))
    | none => (cache, .built (SegmentReader.buildFieldReader dec r field))
  | .built (.ok fr) => (cacheInsert cache field fr, .done (.ok fr))
  | .built (.error e) => (cache, .done (.error e))
  | .done res => (cache, .done res)

/-- Run an arbitrary interleaving: the schedule lists, in order, which
thread performs its next atomic step (out-of-range indices are skipped). -/
def runSched (dec : FieldDecoder) (r : SegmentReader) (field : Field)
    (sched : List Nat) (st : FieldReaderCache × List TState) :
    FieldReaderCache × List TState :=
  match sched with
  | [] => st
  | i :: rest =>
    match st.2.get? i with
    | none => runSched dec r field rest st
    | some t =>
      let p := threadStep dec r field st.1 t
      runSched dec r field rest (p.1, st.2.set i p.2)

/-- Invariant of the concurrent `field_reader` race on a previously-uncached
field whose construction succeeds with the canonical reader `r₀`: the cache
is either untouched or holds exactly the winning insertion; every thread is
at `start`, has built the canonical reader, or is done with it; and once any
thread is done the insertion is in place. -/
def C8Inv (field : Field) (cache₀ : FieldReaderCache) (r₀ : FieldReader)
    (st : FieldReaderCache × List TState) : Prop :=
  (st.1 = cache₀ ∨ st.1 = cacheInsert cache₀ field r₀) ∧
  (∀ t ∈ st.2, t = .start ∨ t = .built (.ok r₀) ∨ t = .done (.ok r₀)) ∧
  ((∃ t ∈ st.2, ∃ res, t = .done res) → st.1 = cacheInsert cache₀ field r₀)

/-- A small schema: field 0 is a fast u64 field, field 1 plain text. -/
def sampleSchema : Schema := ⟨[⟨.u64Type true⟩, ⟨.textType⟩]⟩

/-- A fully populated two-field segment with three documents, two deleted. -/
def sampleSeg : Segment :=
  { termsC := some (.composite [(0, [1, 2]), (1, [3])])
    postingsC := some (.composite [(0, [4]), (1, [5])])
    positionsC := some (.composite [(0, [6]), (1, [7])])
    storeC := some (.storeSrc [some [9], none, some [12]])
    fastfieldsC := some (.composite [(0, [8])])
    fieldnormsC := some (.composite [(0, [10]), (1, [11])])
    deleteC := some (.bits [true, false, true])
    metaS := ⟨3, 1, true⟩
    schemaS := sampleSchema
    idS := 7 }

/-- The reader obtained by opening `sampleSeg`. -/
def sampleReader : SegmentReader :=
  { segment_id := 7
    segment_meta := ⟨3, 1, true⟩
    termdict_composite := ⟨[(0, [1, 2]), (1, [3])]⟩
    postings_composite := ⟨[(0, [4]), (1, [5])]⟩
    positions_composite := ⟨[(0, [6]), (1, [7])]⟩
    store_reader := ⟨[some [9], none, some [12]]⟩
    fast_fields_reader := ⟨⟨[(0, [8])]⟩⟩
    fieldnorms_reader := ⟨⟨[(0, [10]), (1, [11])]⟩⟩
    delete_bitset := ⟨[true, false, true]⟩
    schema := sampleSchema }

/-- The same segment without its optional components: no positions file, no
deletions. -/
def sampleSegNoOpt : Segment :=
  { sampleSeg with
    positionsC := none
    deleteC := none
    metaS := ⟨3, 3, false⟩ }

/-- The reader obtained by opening `sampleSegNoOpt`. -/
def sampleReaderNoOpt : SegmentReader :=
  { sampleReader with
    segment_meta := ⟨3, 3, false⟩
    positions_composite := CompositeFile.empty
    delete_bitset := DeleteBitSet.empty }

/-- A concrete external field-reader builder: concatenates the three
sub-ranges and never fails. -/
def sampleDec : FieldDecoder := ⟨fun td ps pos _ _ => .ok ⟨td ++ ps ++ pos⟩⟩

/-- The canonical field reader `sampleDec` builds for field 0 of
`sampleReader`. -/
def sampleFR : FieldReader := ⟨[1, 2, 4, 6]⟩

theorem Segment.open_read_ok_iff {s : Segment} {c : SegmentComponent} {bs : ByteSource} :
    s.open_read c = .ok bs ↔ s.component c = some bs := by
  cases hc : s.component c <;> simp [Segment.open_read, hc]

theorem CompositeFile.open_ok_shape {bs : ByteSource} {c : CompositeFile}
    (h : CompositeFile.open' bs = .ok c) : ∃ es, bs = .composite es ∧ c = ⟨es⟩ := by
  cases bs <;> simp_all [CompositeFile.open']

theorem FastFieldsReader.from_source_ok_shape {bs : ByteSource} {f : FastFieldsReader}
    (h : FastFieldsReader.from_source bs = .ok f) :
    ∃ es, bs = .composite es ∧ f = ⟨⟨es⟩⟩ := by
  cases bs <;> simp_all [FastFieldsReader.from_source, CompositeFile.open']

/-- Full characterization of a successful `open`: every field of the
returned reader is determined by the segment, and every fallible step must
have succeeded. -/
theorem open_ok_spec {s : Segment} {r : SegmentReader}
    (h : SegmentReader.open' s = .ok r) :
    r.segment_meta = s.metaS ∧ r.schema = s.schemaS ∧ r.segment_id = s.idS ∧
    (∃ es, s.termsC = some (.composite es) ∧ r.termdict_composite = ⟨es⟩) ∧
    (∃ es, s.postingsC = some (.composite es) ∧ r.postings_composite = ⟨es⟩) ∧
    (∃ bs, s.storeC = some bs ∧ r.store_reader = StoreReader.from_source bs) ∧
    (∃ es, s.fastfieldsC = some (.composite es) ∧ r.fast_fields_reader = ⟨⟨es⟩⟩) ∧
    (∃ es, s.fieldnormsC = some (.composite es) ∧ r.fieldnorms_reader = ⟨⟨es⟩⟩) ∧
    ((s.positionsC = none ∧ r.positions_composite = CompositeFile.empty) ∨
      (∃ es, s.positionsC = some (.composite es) ∧ r.positions_composite = ⟨es⟩)) ∧
    ((s.metaS.hasDeletes = true ∧
        ∃ bs, s.deleteC = some bs ∧ r.delete_bitset = DeleteBitSet.open' bs) ∨
      (s.metaS.hasDeletes = false ∧ r.delete_bitset = DeleteBitSet.empty)) := by
  unfold SegmentReader.open' at h
  split at h
  · exact Except.noConfusion h
  rename_i termdict_source heq_t
  split at h
  · exact Except.noConfusion h
  rename_i termdict_composite heq_tc
  split at h
  · exact Except.noConfusion h
  rename_i store_source heq_s
  split at h
  · exact Except.noConfusion h
  rename_i postings_source heq_p
  split at h
  · exact Except.noConfusion h
  rename_i postings_composite heq_pc
  split at h
  · exact Except.noConfusion h
  rename_i positions_composite heq_pos
  split at h
  · exact Except.noConfusion h
  rename_i fast_field_data heq_ff
  split at h
  · exact Except.noConfusion h
  rename_i fast_fields_reader heq_ffr
  split at h
  · exact Except.noConfusion h
  rename_i fieldnorms_data heq_fn
  split at h
  · exact Except.noConfusion h
  rename_i fieldnorms_reader heq_fnr
  split at h
  · exact Except.noConfusion h
  rename_i delete_bitset heq_del
  injection h with h
  subst h
  rw [Segment.open_read_ok_iff] at heq_t heq_s heq_p heq_ff heq_fn
  simp only [Segment.component] at heq_t heq_s heq_p heq_ff heq_fn
  obtain ⟨tes, rfl, rfl⟩ := CompositeFile.open_ok_shape heq_tc
  obtain ⟨pes, rfl, rfl⟩ := CompositeFile.open_ok_shape heq_pc
  obtain ⟨fes, rfl, rfl⟩ := FastFieldsReader.from_source_ok_shape heq_ffr
  obtain ⟨nes, rfl, rfl⟩ := FastFieldsReader.from_source_ok_shape heq_fnr
  refine ⟨rfl, rfl, rfl, ⟨tes, heq_t, rfl⟩, ⟨pes, heq_p, rfl⟩,
    ⟨store_source, heq_s, rfl⟩, ⟨fes, heq_ff, rfl⟩, ⟨nes, heq_fn, rfl⟩, ?_, ?_⟩
  · split at heq_pos
    · rename_i source heq_src
      rw [Segment.open_read_ok_iff] at heq_src
      simp only [Segment.component] at heq_src
      obtain ⟨es, rfl, rfl⟩ := CompositeFile.open_ok_shape heq_pos
      exact Or.inr ⟨es, heq_src, rfl⟩
    · rename_i e heq_src
      injection heq_pos with heq_pos
      refine Or.inl ⟨?_, heq_pos.symm⟩
      cases hpc : s.positionsC with
      | none => rfl
      | some bs => simp [Segment.open_read, Segment.component, hpc] at heq_src
  · split at heq_del
    · rename_i hdel
      split at heq_del
      · rename_i delete_data heq_dd
        rw [Segment.open_read_ok_iff] at heq_dd
        simp only [Segment.component] at heq_dd
        injection heq_del with heq_del
        exact Or.inl ⟨by simpa [Segment.meta, SegmentMeta.has_deletes] using hdel,
          delete_data, heq_dd, heq_del.symm⟩
      · exact Except.noConfusion heq_del
    · rename_i hdel
      injection heq_del with heq_del
      refine Or.inr ⟨?_, heq_del.symm⟩
      simpa [Segment.meta, SegmentMeta.has_deletes] using hdel

/-- C1: for every valid segment whose reader was produced by `open`,
`num_docs() + num_deleted_docs() = max_doc()`, where the first two are read
from the metadata snapshot and the deleted count is the length of the
delete bit set opened (or substituted empty) at construction. -/
theorem C1_doc_count_invariant (s : Segment) (r : SegmentReader)
    (hv : s.valid) (h : SegmentReader.open' s = .ok r) :
    r.num_docs + r.num_deleted_docs = r.max_doc := by
  obtain ⟨hmeta, -, -, -, -, -, -, -, -, hdel⟩ := open_ok_spec h
  obtain ⟨hle, hnd⟩ := hv
  have hdd : r.delete_bitset.len = s.numDeletedOnDisk := by
    rcases hdel with ⟨hd, bs, hbs, hset⟩ | ⟨hd, hset⟩
    · simp [Segment.numDeletedOnDisk, hd, hbs, hset]
    · simp [Segment.numDeletedOnDisk, hd, hset, DeleteBitSet.empty, DeleteBitSet.len]
  unfold SegmentReader.num_docs SegmentReader.num_deleted_docs SegmentReader.max_doc
  unfold SegmentMeta.num_docs SegmentMeta.max_doc
  rw [hmeta, hdd, hnd]
  exact Nat.sub_add_cancel hle

/-- Witness for C1 on the concrete three-document segment with two deleted
documents. -/
theorem C1_doc_count_invariant_witness :
    sampleSeg.valid ∧ SegmentReader.open' sampleSeg = .ok sampleReader ∧
    sampleReader.num_docs + sampleReader.num_deleted_docs = sampleReader.max_doc :=
  ⟨by decide, by decide, C1_doc_count_invariant sampleSeg sampleReader (by decide) (by decide)⟩

/-- C10: `doc(d)` returns exactly the stored-document reader's `get(d)`; the
delete bit set is never consulted, so replacing it does not change the
result and a deleted document is fetched all the same. -/
theorem C10_doc_is_store_get (r : SegmentReader) (d : DocId) :
    r.doc d = r.store_reader.get d ∧
    (∀ b : DeleteBitSet, SegmentReader.doc { r with delete_bitset := b } d = r.doc d) ∧
    (r.is_deleted d = true → r.doc d = r.store_reader.get d) :=
  ⟨rfl, fun _ => rfl, fun _ => rfl⟩

/-- Witness for C10 at a deleted document of the concrete reader. -/
theorem C10_doc_is_store_get_witness :
    sampleReader.is_deleted 0 = true ∧
    sampleReader.doc 0 = sampleReader.store_reader.get 0 :=
  ⟨by decide, (C10_doc_is_store_get sampleReader 0).2.2 (by decide)⟩

/-- C4: `open` returns a reader only if every mandatory component (Terms,
Postings, Store, FastFields, FieldNorms, and Delete when `has_deletes`)
opens and parses successfully; when any of them fails, `open` returns an
error and no reader value exists, so no partially constructed reader is
observable. -/
theorem C4_open_all_or_nothing (s : Segment) :
    ((∃ r, SegmentReader.open' s = .ok r) → s.mandatoryOk) ∧
    (¬ s.mandatoryOk → ∃ e, SegmentReader.open' s = .error e) := by
  have dir : (∃ r, SegmentReader.open' s = .ok r) → s.mandatoryOk := by
    rintro ⟨r, h⟩
    obtain ⟨-, -, -, ⟨tes, ht, -⟩, ⟨pes, hp, -⟩, ⟨sbs, hs, -⟩, ⟨fes, hf, -⟩, ⟨nes, hn, -⟩,
      -, hdel⟩ := open_ok_spec h
    refine ⟨⟨_, ht, ⟨tes⟩, rfl⟩, ⟨_, hs⟩, ⟨_, hp, ⟨pes⟩, rfl⟩, ⟨_, hf, ⟨⟨fes⟩⟩, rfl⟩,
      ⟨_, hn, ⟨⟨nes⟩⟩, rfl⟩, ?_⟩
    intro hd
    rcases hdel with ⟨-, bs, hbs, -⟩ | ⟨hd2, -⟩
    · exact ⟨bs, hbs⟩
    · rw [hd] at hd2
      exact Bool.noConfusion hd2
  refine ⟨dir, ?_⟩
  intro hno
  cases hopen : SegmentReader.open' s with
  | error e => exact ⟨e, rfl⟩
  | ok r => exact absurd (dir ⟨r, hopen⟩) hno

/-- Witness for C4: the fully populated segment opens, so all its mandatory
components must be present and parseable. -/
theorem C4_open_all_or_nothing_witness : sampleSeg.mandatoryOk :=
  (C4_open_all_or_nothing sampleSeg).1 ⟨sampleReader, by decide⟩

/-- C5: during `open`, an unobtainable Positions source is replaced by the
empty composite; an obtained but malformed one is fatal (so a successful
open implies its parse succeeded); the Delete component is opened only when
`has_deletes`, and otherwise the empty bit set makes `num_deleted_docs`
zero and `is_deleted` false everywhere. -/
theorem C5_optional_components (s : Segment) (r : SegmentReader)
    (h : SegmentReader.open' s = .ok r) :
    (s.positionsC = none → r.positions_composite = CompositeFile.empty) ∧
    (∀ bs, s.positionsC = some bs →
      ∃ c, CompositeFile.open' bs = .ok c ∧ r.positions_composite = c) ∧
    (s.metaS.hasDeletes = true →
      ∃ bs, s.deleteC = some bs ∧ r.delete_bitset = DeleteBitSet.open' bs) ∧
    (s.metaS.hasDeletes = false →
      r.delete_bitset = DeleteBitSet.empty ∧ r.num_deleted_docs = 0 ∧
      ∀ d, r.is_deleted d = false) := by
  obtain ⟨-, -, -, -, -, -, -, -, hpos, hdel⟩ := open_ok_spec h
  refine ⟨?_, ?_, ?_, ?_⟩
  · intro hn
    rcases hpos with ⟨-, he⟩ | ⟨es, hsome, -⟩
    · exact he
    · rw [hn] at hsome
      exact Option.noConfusion hsome
  · intro bs hbs
    rcases hpos with ⟨hnone, -⟩ | ⟨es, hsome, he⟩
    · rw [hbs] at hnone
      exact Option.noConfusion hnone
    · rw [hbs] at hsome
      obtain rfl := Option.some.inj hsome
      exact ⟨⟨es⟩, rfl, he⟩
  · intro hd
    rcases hdel with ⟨-, bs, hbs, he⟩ | ⟨hd2, -⟩
    · exact ⟨bs, hbs, he⟩
    · rw [hd] at hd2
      exact Bool.noConfusion hd2
  · intro hd
    rcases hdel with ⟨hd2, -⟩ | ⟨-, he⟩
    · rw [hd] at hd2
      exact Bool.noConfusion hd2
    · refine ⟨he, ?_, ?_⟩
      · simp [SegmentReader.num_deleted_docs, he, DeleteBitSet.len, DeleteBitSet.empty]
      · intro d
        simp [SegmentReader.is_deleted, he, DeleteBitSet.is_deleted, DeleteBitSet.empty]

/-- Witness for C5 on the segment without positions and without deletions. -/
theorem C5_optional_components_witness :
    SegmentReader.open' sampleSegNoOpt = .ok sampleReaderNoOpt ∧
    sampleReaderNoOpt.positions_composite = CompositeFile.empty ∧
    sampleReaderNoOpt.delete_bitset = DeleteBitSet.empty ∧
    sampleReaderNoOpt.num_deleted_docs = 0 ∧
    sampleReaderNoOpt.is_deleted 1 = false :=
  have h : SegmentReader.open' sampleSegNoOpt = .ok sampleReaderNoOpt := by decide
  have hc := C5_optional_components sampleSegNoOpt sampleReaderNoOpt h
  ⟨h, hc.1 (by decide), (hc.2.2.2 (by decide)).1, (hc.2.2.2 (by decide)).2.1,
    (hc.2.2.2 (by decide)).2.2 1⟩

theorem cacheLookup_insert_self (c : FieldReaderCache) (f : Field) (r : FieldReader) :
    cacheLookup (cacheInsert c f r) f = some r := by
  simp [cacheLookup, cacheInsert, List.lookup]

theorem lookup_filter_ne {c : FieldReaderCache} {f g : Field} (hne : g ≠ f) :
    List.lookup g (c.filter (fun p => p.1 != f)) = List.lookup g c := by
  induction c with
  | nil => rfl
  | cons p rest ih =>
    by_cases hpf : p.1 = f
    · have hbp : (p.1 != f) = false := by simp [hpf]
      have hgp : (g == p.1) = false := by simp [hpf, hne]
      simp [List.filter, hbp, List.lookup, hgp, ih]
    · have hbp : (p.1 != f) = true := by simp [hpf]
      cases hgp : g == p.1 <;> simp [List.filter, hbp, List.lookup, hgp, ih]

theorem cacheLookup_insert_ne (c : FieldReaderCache) (f g : Field) (r : FieldReader)
    (hne : g ≠ f) : cacheLookup (cacheInsert c f r) g = cacheLookup c g := by
  have hgf : (g == f) = false := by simp [hne]
  simp only [cacheLookup, cacheInsert, List.lookup, hgf]
  exact lookup_filter_ne hne

theorem cacheCountKey_insert_self (c : FieldReaderCache) (f : Field) (r : FieldReader) :
    cacheCountKey (cacheInsert c f r) f = 1 := by
  simp only [cacheCountKey, cacheInsert]
  have hnil : (c.filter (fun p => p.1 != f)).filter (fun p => p.1 == f) = [] := by
    rw [List.filter_filter]
    have : ∀ p : Field × FieldReader, ((p.1 == f) && (p.1 != f)) = false := by
      intro p
      by_cases hp : p.1 = f <;> simp [hp]
    simp only [Bool.and_comm] at this ⊢
    rw [List.filter_congr (fun p _ => this p)]
    exact List.filter_false _
  simp [List.filter, hnil]

theorem cacheCountKey_zero_of_lookup_none {c : FieldReaderCache} {f : Field}
    (h : cacheLookup c f = none) : cacheCountKey c f = 0 := by
  induction c with
  | nil => rfl
  | cons p rest ih =>
    simp only [cacheLookup, List.lookup] at h ih
    by_cases hp : f = p.1
    · have h1 : (f == p.1) = true := by simp [hp]
      simp only [h1] at h
      exact Option.noConfusion h
    · have h1 : (f == p.1) = false := by simp [hp]
      have h2 : (p.1 == f) = false := by simp [Ne.symm hp]
      simp only [h1] at h
      simp only [cacheCountKey, List.filter, h2]
      simpa [cacheCountKey] using ih h

/-- C2: on a cache miss, `field_reader(f)` returns the "field not found"
error exactly when at least one of the term-dictionary, postings or
positions composites has no sub-range for `f`; that error kind is distinct
from a construction failure and from corruption. -/
theorem C2_field_not_found_iff (dec : FieldDecoder) (r : SegmentReader)
    (cache : FieldReaderCache) (field : Field)
    (hmiss : cacheLookup cache field = none) :
    ((SegmentReader.field_reader dec r cache field).1 = .error .fieldNotFound ↔
      (r.termdict_composite.open_read field = none ∨
       r.postings_composite.open_read field = none ∨
       r.positions_composite.open_read field = none)) ∧
    (∀ e, TError.buildFailure e ≠ TError.fieldNotFound) ∧
    TError.corruption ≠ TError.fieldNotFound := by
  refine ⟨?_, fun e => by simp, by simp⟩
  unfold SegmentReader.field_reader SegmentReader.buildFieldReader
  rw [hmiss]
  cases htd : r.termdict_composite.open_read field <;>
    cases hps : r.postings_composite.open_read field <;>
      cases hpos : r.positions_composite.open_read field <;>
        simp only [htd, hps, hpos] <;>
          try simp
  rename_i td ps pos
  cases hdn : dec.new td ps pos r.delete_bitset r.schema <;> simp [hdn]

/-- Witness for C2 at a field absent from every composite of the concrete
reader. -/
theorem C2_field_not_found_iff_witness :
    cacheLookup [] 2 = none ∧
    ((SegmentReader.field_reader sampleDec sampleReader [] 2).1 = .error .fieldNotFound ↔
      (sampleReader.termdict_composite.open_read 2 = none ∨
       sampleReader.postings_composite.open_read 2 = none ∨
       sampleReader.positions_composite.open_read 2 = none)) :=
  ⟨rfl, (C2_field_not_found_iff sampleDec sampleReader [] 2 rfl).1⟩

/-- C3: once `field_reader(f)` succeeds, calling it again on the resulting
state succeeds with the same (value-equal) reader and leaves the cache
unchanged; the cache holds an entry for `f`, and when the first call was a
miss that entry is the reader built from the three composite sub-ranges. -/
theorem C3_field_reader_repeat (dec : FieldDecoder) (r : SegmentReader)
    (cache cache' : FieldReaderCache) (field : Field) (fr : FieldReader)
    (h : SegmentReader.field_reader dec r cache field = (.ok fr, cache')) :
    SegmentReader.field_reader dec r cache' field = (.ok fr, cache') ∧
    cacheLookup cache' field = some fr ∧
    (cacheLookup cache field = none →
      ∃ td ps pos, r.termdict_composite.open_read field = some td ∧
        r.postings_composite.open_read field = some ps ∧
        r.positions_composite.open_read field = some pos ∧
        dec.new td ps pos r.delete_bitset r.schema = .ok fr) := by
  unfold SegmentReader.field_reader at h
  cases hc : cacheLookup cache field with
  | some fr0 =>
    rw [hc] at h
    have h1 : (Except.ok fr0 : Except TError FieldReader) = .ok fr := congrArg Prod.fst h
    have h2 : cache = cache' := congrArg Prod.snd h
    obtain rfl : fr0 = fr := by injection h1
    refine ⟨?_, ?_, ?_⟩
    · unfold SegmentReader.field_reader
      rw [← h2, hc]
    · rw [← h2]
      exact hc
    · intro hnone
      exact Option.noConfusion hnone
  | none =>
    rw [hc] at h
    cases hb : SegmentReader.buildFieldReader dec r field with
    | error e =>
      rw [hb] at h
      exact Except.noConfusion (congrArg Prod.fst h)
    | ok fr0 =>
      rw [hb] at h
      have h1 : (Except.ok fr0 : Except TError FieldReader) = .ok fr := congrArg Prod.fst h
      have h2 : cacheInsert cache field fr0 = cache' := congrArg Prod.snd h
      obtain rfl : fr0 = fr := by injection h1
      refine ⟨?_, ?_, ?_⟩
      · unfold SegmentReader.field_reader
        rw [← h2, cacheLookup_insert_self]
      · rw [← h2]
        exact cacheLookup_insert_self _ _ _
      · intro _
        unfold SegmentReader.buildFieldReader at hb
        split at hb
        · exact Except.noConfusion hb
        rename_i td htd
        split at hb
        · exact Except.noConfusion hb
        rename_i ps hps
        split at hb
        · exact Except.noConfusion hb
        rename_i pos hpos
        split at hb
        · rename_i fr1 hdn
          injection hb with hb
          subst hb
          exact ⟨td, ps, pos, htd, hps, hpos, hdn⟩
        · exact Except.noConfusion hb

/-- Witness for C3 on a first successful call for field 0. -/
theorem C3_field_reader_repeat_witness :
    SegmentReader.field_reader sampleDec sampleReader [] 0 = (.ok sampleFR, [(0, sampleFR)]) ∧
    SegmentReader.field_reader sampleDec sampleReader [(0, sampleFR)] 0 =
      (.ok sampleFR, [(0, sampleFR)]) ∧
    cacheLookup [(0, sampleFR)] 0 = some sampleFR :=
  have h : SegmentReader.field_reader sampleDec sampleReader [] 0 =
      (.ok sampleFR, [(0, sampleFR)]) := by decide
  ⟨h, (C3_field_reader_repeat sampleDec sampleReader [] [(0, sampleFR)] 0 sampleFR h).1,
    (C3_field_reader_repeat sampleDec sampleReader [] [(0, sampleFR)] 0 sampleFR h).2.1⟩

/-- C7: a failing `field_reader` call leaves the cache exactly as it was,
and any later call behaves as if the failing call never happened. -/
theorem C7_error_leaves_cache (dec : FieldDecoder) (r : SegmentReader)
    (cache : FieldReaderCache) (field : Field) (e : TError)
    (h : (SegmentReader.field_reader dec r cache field).1 = .error e) :
    (SegmentReader.field_reader dec r cache field).2 = cache ∧
    (∀ g, SegmentReader.field_reader dec r
        (SegmentReader.field_reader dec r cache field).2 g =
      SegmentReader.field_reader dec r cache g) := by
  have hsnd : (SegmentReader.field_reader dec r cache field).2 = cache := by
    unfold SegmentReader.field_reader at h ⊢
    cases hc : cacheLookup cache field with
    | some fr => simp [hc]
    | none =>
      simp only [hc] at h ⊢
      cases hb : SegmentReader.buildFieldReader dec r field with
      | ok fr => simp [hb] at h
      | error e2 => simp [hb]
  exact ⟨hsnd, fun g => by rw [hsnd]⟩

/-- Witness for C7: a failing lookup of an absent field leaves the empty
cache empty and a later call for field 0 is unaffected. -/
theorem C7_error_leaves_cache_witness :
    (SegmentReader.field_reader sampleDec sampleReader [] 2).1 = .error .fieldNotFound ∧
    (SegmentReader.field_reader sampleDec sampleReader [] 2).2 = [] ∧
    SegmentReader.field_reader sampleDec sampleReader
        (SegmentReader.field_reader sampleDec sampleReader [] 2).2 0 =
      SegmentReader.field_reader sampleDec sampleReader [] 0 :=
  have h : (SegmentReader.field_reader sampleDec sampleReader [] 2).1 =
      .error .fieldNotFound := by decide
  ⟨h, (C7_error_leaves_cache sampleDec sampleReader [] 2 .fieldNotFound h).1,
    (C7_error_leaves_cache sampleDec sampleReader [] 2 .fieldNotFound h).2 0⟩

/-- C6: `get_fast_field_reader` returns the type-mismatch error exactly when
the requested reader kind is not enabled for the field's declared schema
type; the schema check comes before any access to the fast-field composite
(the outcome on a disabled type is the same for any reader sharing the
schema), and that error is a distinct outcome from `ok` and from the
missing-sub-range panic. -/
theorem C6_fast_field_type_mismatch (r : SegmentReader) (kind : FastFieldReaderKind)
    (field : Field) :
    ((∃ e, r.get_fast_field_reader kind field = .notAvailable e) ↔
      kind.is_enabled (r.schema.get_field_entry field).fieldType = false) ∧
    (kind.is_enabled (r.schema.get_field_entry field).fieldType = false →
      ∀ r' : SegmentReader, r'.schema = r.schema →
        SegmentReader.get_fast_field_reader r' kind field =
          .notAvailable (r.schema.get_field_entry field)) ∧
    (∀ e sub, SegmentReader.FFOutcome.notAvailable e ≠ .ok sub) ∧
    (∀ e, SegmentReader.FFOutcome.notAvailable e ≠ .panicked) := by
  refine ⟨?_, ?_, fun e sub => by simp, fun e => by simp⟩
  · unfold SegmentReader.get_fast_field_reader
    cases he : kind.is_enabled (r.schema.get_field_entry field).fieldType
    · simp [he]
    · cases ho : r.fast_fields_reader.open_reader field <;> simp [he, ho]
  · intro hfalse r' hsch
    unfold SegmentReader.get_fast_field_reader
    rw [hsch]
    simp [hfalse]

/-- Witness for C6 at the text field 1, for which the u64 fast reader is
not enabled. -/
theorem C6_fast_field_type_mismatch_witness :
    FastFieldReaderKind.is_enabled .u64Reader
      ((sampleReader.schema.get_field_entry 1).fieldType) = false ∧
    sampleReader.get_fast_field_reader .u64Reader 1 =
      .notAvailable (sampleReader.schema.get_field_entry 1) :=
  ⟨by decide,
    (C6_fast_field_type_mismatch sampleReader .u64Reader 1).2.1 (by decide) sampleReader rfl⟩

/-- C9: for a schema-enabled reader kind, the call returns `ok` exactly when
the fast-fields composite has a sub-range for the field; a missing
sub-range panics rather than returning an error value; and under the
precondition that every schema-enabled field has a sub-range, the call
always returns `ok`. -/
theorem C9_enabled_ok_iff_subrange (r : SegmentReader) (kind : FastFieldReaderKind)
    (field : Field)
    (hEn : kind.is_enabled (r.schema.get_field_entry field).fieldType = true) :
    ((∃ sub, r.get_fast_field_reader kind field = .ok sub) ↔
      (r.fast_fields_reader.open_reader field).isSome = true) ∧
    (r.fast_fields_reader.open_reader field = none →
      r.get_fast_field_reader kind field = .panicked) ∧
    (∀ sub, r.fast_fields_reader.open_reader field = some sub →
      r.get_fast_field_reader kind field = .ok sub) ∧
    ((∀ g, kind.is_enabled (r.schema.get_field_entry g).fieldType = true →
        (r.fast_fields_reader.open_reader g).isSome = true) →
      ∃ sub, r.get_fast_field_reader kind field = .ok sub) := by
  cases ho : r.fast_fields_reader.open_reader field with
  | none =>
    refine ⟨by simp [SegmentReader.get_fast_field_reader, hEn, ho],
      fun _ => by simp [SegmentReader.get_fast_field_reader, hEn, ho],
      fun sub hs => Option.noConfusion hs, fun hall => ?_⟩
    have h2 := hall field hEn
    rw [ho] at h2
    exact Bool.noConfusion h2
  | some sub =>
    refine ⟨by simp [SegmentReader.get_fast_field_reader, hEn, ho],
      fun hn => Option.noConfusion hn, fun sub2 hs2 => ?_,
      fun hall => ⟨sub, by simp [SegmentReader.get_fast_field_reader, hEn, ho]⟩⟩
    obtain rfl := Option.some.inj hs2
    simp [SegmentReader.get_fast_field_reader, hEn, ho]

/-- Witness for C9 at the fast u64 field 0, which has a fast-field
sub-range. -/
theorem C9_enabled_ok_iff_subrange_witness :
    FastFieldReaderKind.is_enabled .u64Reader
      ((sampleReader.schema.get_field_entry 0).fieldType) = true ∧
    sampleReader.fast_fields_reader.open_reader 0 = some [8] ∧
    sampleReader.get_fast_field_reader .u64Reader 0 = .ok [8] :=
  ⟨by decide, by decide,
    (C9_enabled_ok_iff_subrange sampleReader .u64Reader 0 (by decide)).2.2.1 [8] (by decide)⟩

theorem filter_idem {p : Field × FieldReader → Bool} {c : FieldReaderCache} :
    (c.filter p).filter p = c.filter p := by
  induction c with
  | nil => rfl
  | cons x rest ih => cases hx : p x <;> simp [List.filter, hx, ih]

theorem cacheInsert_idem (c : FieldReaderCache) (f : Field) (r : FieldReader) :
    cacheInsert (cacheInsert c f r) f r = cacheInsert c f r := by
  simp only [cacheInsert]
  have hf : (((f, r) : Field × FieldReader).1 != f) = false := by simp
  simp [List.filter, hf, filter_idem]

theorem cacheInsert_ne_base (cache₀ : FieldReaderCache) (field : Field) (r₀ : FieldReader)
    (h₀ : cacheLookup cache₀ field = none) :
    cache₀ ≠ cacheInsert cache₀ field r₀ := by
  intro hEq
  have h2 : (none : Option FieldReader) = some r₀ :=
    calc (none : Option FieldReader) = cacheLookup cache₀ field := h₀.symm
      _ = cacheLookup (cacheInsert cache₀ field r₀) field := by rw [← hEq]
      _ = some r₀ := cacheLookup_insert_self _ _ _
  exact Option.noConfusion h2

/-- One atomic step of any thread preserves the race invariant. -/
theorem C8Inv_step (dec : FieldDecoder) (r : SegmentReader) (field : Field)
    (cache₀ : FieldReaderCache) (r₀ : FieldReader)
    (h₀ : cacheLookup cache₀ field = none)
    (hb : SegmentReader.buildFieldReader dec r field = .ok r₀)
    (c : FieldReaderCache) (ts : List TState) (t : TState) (i : Nat)
    (hget : ts.get? i = some t)
    (hinv : C8Inv field cache₀ r₀ (c, ts)) :
    C8Inv field cache₀ r₀
      ((threadStep dec r field c t).1, ts.set i (threadStep dec r field c t).2) := by
  obtain ⟨hcache, hts, hdone⟩ := hinv
  have hne := cacheInsert_ne_base cache₀ field r₀ h₀
  have htmem : t ∈ ts := List.get?_mem hget
  rcases hts t htmem with rfl | rfl | rfl
  · rcases hcache with rfl | rfl
    · simp only [threadStep, h₀, hb]
      refine ⟨Or.inl rfl, ?_, ?_⟩
      · intro t' ht'
        rcases List.mem_or_eq_of_mem_set ht' with h' | rfl
        · exact hts t' h'
        · exact Or.inr (Or.inl rfl)
      · rintro ⟨t', ht', res, hres⟩
        rcases List.mem_or_eq_of_mem_set ht' with h' | rfl
        · exact absurd (hdone ⟨t', h', res, hres⟩) hne
        · exact TState.noConfusion hres
    · simp only [threadStep, cacheLookup_insert_self]
      refine ⟨Or.inr rfl, ?_, fun _ => rfl⟩
      intro t' ht'
      rcases List.mem_or_eq_of_mem_set ht' with h' | rfl
      · exact hts t' h'
      · exact Or.inr (Or.inr rfl)
  · have hins : cacheInsert c field r₀ = cacheInsert cache₀ field r₀ := by
      rcases hcache with rfl | rfl
      · rfl
      · exact cacheInsert_idem _ _ _
    simp only [threadStep, hins]
    refine ⟨Or.inr rfl, ?_, fun _ => rfl⟩
    intro t' ht'
    rcases List.mem_or_eq_of_mem_set ht' with h' | rfl
    · exact hts t' h'
    · exact Or.inr (Or.inr rfl)
  · simp only [threadStep]
    refine ⟨hcache, ?_, ?_⟩
    · intro t' ht'
      rcases List.mem_or_eq_of_mem_set ht' with h' | rfl
      · exact hts t' h'
      · exact Or.inr (Or.inr rfl)
    · intro _
      exact hdone ⟨.done (.ok r₀), htmem, .ok r₀, rfl⟩

/-- The race invariant is preserved by every schedule. -/
theorem C8Inv_run (dec : FieldDecoder) (r : SegmentReader) (field : Field)
    (cache₀ : FieldReaderCache) (r₀ : FieldReader)
    (h₀ : cacheLookup cache₀ field = none)
    (hb : SegmentReader.buildFieldReader dec r field = .ok r₀) :
    ∀ (sched : List Nat) (st : FieldReaderCache × List TState),
      C8Inv field cache₀ r₀ st → C8Inv field cache₀ r₀ (runSched dec r field sched st) := by
  intro sched
  induction sched with
  | nil =>
    intro st h
    simpa [runSched] using h
  | cons i rest ih =>
    intro st h
    obtain ⟨c, ts⟩ := st
    simp only [runSched]
    cases hget : ts.get? i with
    | none => exact ih (c, ts) h
    | some t => exact ih _ (C8Inv_step dec r field cache₀ r₀ h₀ hb c ts t i hget h)

/-- C8: when N threads race on `field_reader` for the same previously
uncached field whose construction succeeds with reader `r₀`, then under
every interleaving no thread fails, every thread that is finished holds the
value-equivalent reader `r₀`, the cache ends up with exactly one entry for
the field (last insertion wins) as soon as any thread finished, and no
other field's cache entry is disturbed. -/
theorem C8_concurrent_same_field (dec : FieldDecoder) (r : SegmentReader)
    (cache₀ : FieldReaderCache) (field : Field) (r₀ : FieldReader) (n : Nat)
    (sched : List Nat) (c : FieldReaderCache) (ts : List TState)
    (h₀ : cacheLookup cache₀ field = none)
    (hb : SegmentReader.buildFieldReader dec r field = .ok r₀)
    (hrun : runSched dec r field sched (cache₀, List.replicate n .start) = (c, ts)) :
    (∀ t ∈ ts, t = .start ∨ t = .built (.ok r₀) ∨ t = .done (.ok r₀)) ∧
    (∀ t ∈ ts, ∀ res, t = .done res → res = .ok r₀) ∧
    (c = cache₀ ∨ c = cacheInsert cache₀ field r₀) ∧
    ((∃ t ∈ ts, ∃ res, t = .done res) →
      c = cacheInsert cache₀ field r₀ ∧
      cacheLookup c field = some r₀ ∧ cacheCountKey c field = 1) ∧
    (∀ g, g ≠ field → cacheLookup c g = cacheLookup cache₀ g) := by
  have hinit : C8Inv field cache₀ r₀ (cache₀, List.replicate n .start) := by
    refine ⟨Or.inl rfl, ?_, ?_⟩
    · intro t ht
      rw [List.eq_of_mem_replicate ht]
      exact Or.inl rfl
    · rintro ⟨t, ht, res, hres⟩
      rw [List.eq_of_mem_replicate ht] at hres
      exact TState.noConfusion hres
  have hfin := C8Inv_run dec r field cache₀ r₀ h₀ hb sched _ hinit
  rw [hrun] at hfin
  obtain ⟨hcache, hts, hdone⟩ := hfin
  refine ⟨hts, ?_, hcache, ?_, ?_⟩
  · intro t ht res hres
    rcases hts t ht with rfl | rfl | rfl
    · exact TState.noConfusion hres
    · exact TState.noConfusion hres
    · injection hres with h1
      exact h1.symm
  · intro hex
    have hc : c = cacheInsert cache₀ field r₀ := hdone hex
    exact ⟨hc, by rw [hc]; exact cacheLookup_insert_self _ _ _,
      by rw [hc]; exact cacheCountKey_insert_self _ _ _⟩
  · intro g hg
    rcases hcache with rfl | rfl
    · rfl
    · exact cacheLookup_insert_ne _ _ _ _ hg

/-- Witness for C8: two threads, fully interleaved schedule, racing on the
uncached field 0; both finish with the same reader and the cache holds one
entry. -/
theorem C8_concurrent_same_field_witness :
    cacheLookup [] 0 = none ∧
    SegmentReader.buildFieldReader sampleDec sampleReader 0 = .ok sampleFR ∧
    runSched sampleDec sampleReader 0 [0, 1, 0, 1] ([], List.replicate 2 .start) =
      ([(0, sampleFR)], [.done (.ok sampleFR), .done (.ok sampleFR)]) ∧
    cacheLookup [(0, sampleFR)] 0 = some sampleFR ∧
    cacheCountKey [(0, sampleFR)] 0 = 1 :=
  have h₀ : cacheLookup ([] : FieldReaderCache) 0 = none := rfl
  have hb : SegmentReader.buildFieldReader sampleDec sampleReader 0 = .ok sampleFR := by
    decide
  have hrun : runSched sampleDec sampleReader 0 [0, 1, 0, 1] ([], List.replicate 2 .start) =
      ([(0, sampleFR)], [.done (.ok sampleFR), .done (.ok sampleFR)]) := by decide
  have hmain := C8_concurrent_same_field sampleDec sampleReader [] 0 sampleFR 2
    [0, 1, 0, 1] [(0, sampleFR)] [.done (.ok sampleFR), .done (.ok sampleFR)] h₀ hb hrun
  have hex : ∃ t ∈ [TState.done (.ok sampleFR), TState.done (.ok sampleFR)],
      ∃ res, t = TState.done res :=
    ⟨.done (.ok sampleFR), List.mem_cons_self _ _, .ok sampleFR, rfl⟩
  ⟨h₀, hb, hrun, (hmain.2.2.2.1 hex).2.1, (hmain.2.2.2.1 hex).2.2⟩

end Tantivy
